import Mathlib

/-!
Verification of the text-to-structured-schema normalization pipeline of the
Itinerary-Generator repository (src/app.py).  The development shallowly embeds
the three core functions `extract_json_block`, `parse_extra_sections` and
`normalize_daywise_schema` over a model of Python JSON-like values, and proves
or refutes the frozen claims about them.

Conventions of the embedding:
* Python dict/list/str/int/bool/None values are modelled by `JVal`; dicts are
  association lists in insertion order (CPython preserves insertion order).
* Numeric values are modelled by `Int` (no claim depends on float behaviour).
* A Python `AttributeError` (e.g. calling `.get` on a non-dict) is modelled by
  `Except.error PyErr.attributeError`; code that cannot raise is pure.
* `str.lower` is modelled on ASCII letters (`Char.toLower`), and `str.strip` /
  regex `\s` on the ASCII whitespace set; every input appearing in the claims
  is ASCII, where the two models agree with CPython.
-/

set_option maxRecDepth 40000

namespace ItinerarySpec

/-- Model of a Python JSON-like value as produced by `json.loads`. -/
inductive JVal where
  | jnull
  | jbool (b : Bool)
  | jnum (n : Int)
  | jstr (s : String)
  | jarr (elems : List JVal)
  | jobj (fields : List (String × JVal))

/-- Python truthiness (`bool(v)`) for the modelled values. -/
def JVal.truthy : JVal → Bool
  | .jnull => false
  | .jbool b => b
  | .jnum n => n != 0
  | .jstr s => s ≠ ""
  | .jarr xs => !xs.isEmpty
  | .jobj kvs => !kvs.isEmpty

/-- Python `a or b` on values: `a` when truthy, else `b`. -/
def pyOr (a b : JVal) : JVal := if a.truthy then a else b

/-- First binding of a key in an association list (Python dict lookup;
dict keys are unique, so first = only). -/
def jlookup : List (String × JVal) → String → Option JVal
  | [], _ => none
  | (k, v) :: rest, key => if k = key then some v else jlookup rest key

/-- Python `d.get(k)` on a dict `d` given as its binding list. -/
def objGet (kvs : List (String × JVal)) (k : String) : JVal :=
  (jlookup kvs k).getD .jnull

/-- Python `d.get(k, default)` on a dict. -/
def objGetD (kvs : List (String × JVal)) (k : String) (dflt : JVal) : JVal :=
  (jlookup kvs k).getD dflt

/-- Python `k in d` on a dict. -/
def objHasKey (kvs : List (String × JVal)) (k : String) : Bool :=
  (jlookup kvs k).isSome

/-- Whether a value is a Python dict (`isinstance(v, dict)`). -/
def JVal.isObj : JVal → Bool
  | .jobj _ => true
  | _ => false

/-- Errors the embedded Python code can raise. -/
inductive PyErr where
  | attributeError
deriving DecidableEq

/-- ASCII whitespace recognised by Python `str.strip()` and regex `\s`. -/
def pyIsSpace (c : Char) : Bool :=
  c = ' ' || c = '\t' || c = '\n' || c = '\r' || c = '\x0b' || c = '\x0c'

/-- Python `str.strip()` on a character list. -/
def pyStripList (cs : List Char) : List Char :=
  ((cs.dropWhile pyIsSpace).reverse.dropWhile pyIsSpace).reverse

/-- Python `str.strip()`. -/
def pyStrip (s : String) : String := String.mk (pyStripList s.data)

/-- Python `str.lower()` (ASCII). -/
def pyLower (s : String) : String := String.mk (s.data.map Char.toLower)

/-- Python `str.replace("*", "")`: delete every `*`. -/
def removeStars (s : String) : String := String.mk (s.data.filter (· ≠ '*'))

/-- Case-sensitive "`pat` is a leading segment of `cs`" on character lists. -/
def headSeg : List Char → List Char → Bool
  | [], _ => true
  | p :: pr, cs =>
    match cs with
    | c :: cr => p = c && headSeg pr cr
    | [] => false

/-- Python `needle in haystack` substring test. -/
def hasSub (needle : List Char) : List Char → Bool
  | [] => headSeg needle []
  | c :: rest => headSeg needle (c :: rest) || hasSub needle rest

/-- Python `str(v)` as used by an f-string; container rendering follows
`repr` with single-quoted strings (string escaping inside containers is not
modelled; no claim exercises it). -/
def pyStr : JVal → String
  | .jnull => "None"
  | .jbool true => "True"
  | .jbool false => "False"
  | .jnum n => toString n
  | .jstr s => s
  | .jarr xs => "[" ++ pyStrList xs ++ "]"
  | .jobj kvs => "\x7b" ++ pyStrPairs kvs ++ "\x7d"
where
  pyStrElem : JVal → String
  | .jnull => "None"
  | .jbool true => "True"
  | .jbool false => "False"
  | .jnum n => toString n
  | .jstr s => "\x27" ++ s ++ "\x27"
  | .jarr xs => "[" ++ pyStrList xs ++ "]"
  | .jobj kvs => "\x7b" ++ pyStrPairs kvs ++ "\x7d"
  pyStrList : List JVal → String
  | [] => ""
  | [x] => pyStrElem x
  | x :: y :: rest => pyStrElem x ++ ", " ++ pyStrList (y :: rest)
  pyStrPairs : List (String × JVal) → String
  | [] => ""
  | [(k, v)] => "\x27" ++ k ++ "\x27: " ++ pyStrElem v
  | (k, v) :: p :: rest => "\x27" ++ k ++ "\x27: " ++ pyStrElem v ++ ", " ++ pyStrPairs (p :: rest)

example : pyStr (.jnum 7) = "7" := rfl
example : pyStr (.jstr "three") = "three" := rfl
example : hasSub "anyon".data "grand canyon lodge".data = true := rfl
example : pyStrip "  a b\n" = "a b" := rfl
example : removeStars "**Local**" = "Local" := rfl

/-! ### The extractor: `extract_json_block` (src/app.py lines 94-132) -/

/-- Case-insensitive (ASCII) "`pat` is a leading segment of `cs`". -/
def headSegCI : List Char → List Char → Bool
  | [], _ => true
  | p :: pr, cs =>
    match cs with
    | c :: cr => p.toLower = c.toLower && headSegCI pr cr
    | [] => false

/-- Case-insensitive trailing-segment test (via reversal). -/
def tailSegCI (pat cs : List Char) : Bool :=
  headSegCI pat.reverse cs.reverse

/-- The preprocessing of `extract_json_block` (lines 101-105): strip, then
remove a leading case-insensitive ```` ```json ```` fence, a remaining leading
```` ``` ```` fence and a trailing ```` ``` ```` fence, re-stripping after
each removal.  Each `re.sub` is start- resp. end-anchored, so it removes at
most one occurrence; after a strip the text has no trailing newline, so the
`$` anchor means end-of-string. -/
def fencePrep (raw : String) : List Char :=
  let t1 := pyStripList raw.data
  let t2 := pyStripList (if headSegCI "```json".data t1 then t1.drop 7 else t1)
  let t3 := pyStripList (if headSegCI "```".data t2 then t2.drop 3 else t2)
  pyStripList (if tailSegCI "```".data t3 then t3.take (t3.length - 3) else t3)

/-- Index of the first occurrence of a character (`str.find`, as `Option`). -/
def firstIdx (c : Char) : List Char → Option Nat
  | [] => none
  | x :: r => if x = c then some 0 else (firstIdx c r).map (· + 1)

/-- The three `ValueError` sites of `extract_json_block`, by message:
"Empty model output", "No JSON start found", "Could not extract balanced
JSON". -/
inductive ExtractErr where
  | emptyInput
  | noObjectStart
  | unbalanced
deriving DecidableEq

/-- The scan loop of lines 111-131: walk the characters from the opening
brace keeping `depth`, `in_str` and `escape` exactly as the source does, and
return the offset (relative to the start brace) of the closing brace at which
`depth` returns to `0`.  `depth` is a `Nat`; on the only call site the first
scanned character is `\x7b`, so `depth` is positive whenever a `\x7d` is
examined and the `Nat` truncation is never exercised. -/
def scanFrom : List Char → Nat → Bool → Bool → Nat → Option Nat
  | [], _, _, _, _ => none
  | c :: rest, depth, instr, esc, i =>
    if esc then scanFrom rest depth instr false (i+1)
    else if c = '\x5c' then scanFrom rest depth instr true (i+1)
    else if c = '\x22' then scanFrom rest depth (!instr) esc (i+1)
    else if !instr && c = '\x7b' then scanFrom rest (depth+1) instr esc (i+1)
    else if !instr && c = '\x7d' then
      if depth - 1 = 0 then some i else scanFrom rest (depth - 1) instr esc (i+1)
    else scanFrom rest depth instr esc (i+1)

/-- `extract_json_block(raw_text)` (lines 94-132): empty-input check, fence
stripping, locating the first `\x7b`, and the balanced scan.  Returns the
candidate substring `text[start:i+1]` or the error of the raising site. -/
def extract_json_block (raw : String) : Except ExtractErr String :=
  if raw = "" then .error .emptyInput
  else
    let t := fencePrep raw
    match firstIdx '\x7b' t with
    | none => .error .noObjectStart
    | some start =>
      match scanFrom (t.drop start) 0 false false 0 with
      | some i => .ok (String.mk ((t.drop start).take (i+1)))
      | none => .error .unbalanced

example : extract_json_block "Here is your plan:\n```json\n\x7b\"days\":[]\x7d\n```" =
    .ok "\x7b\"days\":[]\x7d" := rfl
example : extract_json_block "\x7b\"a\": \"\x7d not a close\"\x7d\"" =
    .ok "\x7b\"a\": \"\x7d not a close\"\x7d" := rfl
example : extract_json_block "" = .error .emptyInput := rfl
example : extract_json_block "   " = .error .noObjectStart := rfl
example : extract_json_block "\x7b\"a\": 1" = .error .unbalanced := rfl

/-! ### Section extraction: `parse_extra_sections` (src/app.py lines 134-156)

Each pattern has the shape `LABEL TAIL \s* (.*?) (?=(STOP1|STOP2|$))` (the
last pattern captures greedily to the end), searched case-insensitively with
`re.S`.  For such patterns `re.search` semantics decompose as: the match
starts at the first position where the label part matches (the rest of the
pattern always succeeds, since `$` lets the lazy group run to the end);
greedy `\s*` then fixes the capture start, and the lazy group stops at the
first position where one of the stop phrases matches, or at the end.  The
`$` anchor can also fire just before a final newline, which changes the raw
capture by at most that trailing newline — erased by the final `.strip()`,
so it is modelled as end-of-string. -/

/-- Matcher for the label part `Famous shopping(?: recommendations)?:` with
the regex backtracking over the optional group; returns the text after the
mandatory colon. -/
def famousLabel (cs : List Char) : Option (List Char) :=
  if headSegCI "Famous shopping recommendations:".data cs then some (cs.drop 32)
  else if headSegCI "Famous shopping:".data cs then some (cs.drop 16)
  else none

/-- Matcher for a label part `PHRASE[:\-]?`; returns the text after the
phrase and the optional (greedily taken) colon or dash. -/
def plainLabel (phrase : List Char) (cs : List Char) : Option (List Char) :=
  if headSegCI phrase cs then
    match cs.drop phrase.length with
    | ':' :: rr => some rr
    | '-' :: rr => some rr
    | rr => some rr
  else none

/-- Leftmost-match search: try the label matcher at each position from the
left, returning the remainder after the first successful match. -/
def searchLabel (f : List Char → Option (List Char)) : List Char → Option (List Char)
  | [] => f []
  | c :: rest =>
    match f (c :: rest) with
    | some r => some r
    | none => searchLabel f rest

/-- Whether one of the stop phrases matches at this position
(the lookahead `(?=(STOP1|STOP2))`, case-insensitive). -/
def anyStop (stops : List (List Char)) (cs : List Char) : Bool :=
  stops.any fun s => headSegCI s cs

/-- The lazy capture `(.*?)(?=(STOPS|$))`: take characters until the first
position where a stop phrase matches, or the end of text. -/
def lazyCapture (stops : List (List Char)) : List Char → List Char
  | [] => []
  | c :: rest => if anyStop stops (c :: rest) then [] else c :: lazyCapture stops rest

/-- One table entry: `m.group(1).strip() if m else ""`. -/
def captureSection (f : List Char → Option (List Char)) (stops : List (List Char))
    (text : List Char) : String :=
  match searchLabel f text with
  | none => ""
  | some r => String.mk (pyStripList (lazyCapture stops (r.dropWhile pyIsSpace)))

/-- The `patterns` table of lines 144-151: key, label matcher, stop phrases. -/
def sectionSpecs : List (String × (List Char → Option (List Char)) × List (List Char)) :=
  [("famous_shopping", famousLabel, ["What to pack".data, "Safety rules".data]),
   ("what_to_pack", plainLabel "What to pack".data, ["Safety rules".data, "Extra travel tips".data]),
   ("safety_rules", plainLabel "Safety rules".data, ["Extra travel tips".data, "Estimated total budget".data]),
   ("extra_travel_tips", plainLabel "Extra travel tips".data, ["Estimated total budget".data, "Closing note".data]),
   ("estimated_total_budget", plainLabel "Estimated total budget".data, ["Closing note".data]),
   ("closing_note", plainLabel "Closing note".data, [])]

/-- `parse_extra_sections(itinerary_text)` (lines 134-156): an all-empty
mapping for falsy input, else one capture per table entry, in table order. -/
def parse_extra_sections (text : String) : List (String × String) :=
  if text = "" then
    [("famous_shopping", ""), ("what_to_pack", ""), ("safety_rules", ""),
     ("extra_travel_tips", ""), ("estimated_total_budget", ""), ("closing_note", "")]
  else
    sectionSpecs.map fun e => (e.1, captureSection e.2.1 e.2.2 text.data)

/-- Lookup in the result mapping. -/
def secLookup : List (String × String) → String → Option String
  | [], _ => none
  | (k, v) :: rest, key => if k = key then some v else secLookup rest key

example :
    secLookup (parse_extra_sections "What to pack: socks\nSafety rules: none") "what_to_pack"
      = some "socks" := rfl
example :
    secLookup (parse_extra_sections "Famous shopping recommendations: mall A What to pack: hat")
      "famous_shopping" = some "mall A" := rfl
example :
    secLookup (parse_extra_sections "Closing note: bye\n") "closing_note" = some "bye" := rfl
example :
    secLookup (parse_extra_sections "Famous shopping: A Extra travel tips: B")
      "famous_shopping" = some "A Extra travel tips: B" := rfl

/-! ### The normalizer: `normalize_daywise_schema` (src/app.py lines 197-303) -/

/-- A `places_dataset` row as consumed by the image-selection code: the
`place` field (`None`-able) and the `local_image` field, each possibly
absent/None (modelled `none`) or a string (possibly empty). -/
structure CatalogEntry where
  place : Option String
  local_image : Option String
deriving DecidableEq

/-- Truthiness of `p.get("local_image")`. -/
def optTruthy : Option String → Bool
  | none => false
  | some s => s ≠ ""

/-- Line 262: `(p.get("place") or "").lower().strip()`. -/
def dbNorm (e : CatalogEntry) : String := pyStrip (pyLower (e.place.getD ""))

/-- The line-263 condition `morning_place and morning_place in db_place`. -/
def nameMatchesB (mp : String) (e : CatalogEntry) : Bool :=
  mp ≠ "" && hasSub mp.data (dbNorm e).data

/-- Lines 261-265, first loop: the image of the first catalog entry whose
normalised `place` has the (truthy) morning place as a substring; `none`
when the loop finds no match. -/
def findMatchImage (mp : String) : List CatalogEntry → Option (Option String)
  | [] => none
  | p :: rest =>
    if nameMatchesB mp p then some p.local_image
    else findMatchImage mp rest

/-- Lines 268-272, fallback loop: first truthy `local_image` in the dataset. -/
def firstTruthyImage : List CatalogEntry → Option String
  | [] => none
  | p :: rest => if optTruthy p.local_image then p.local_image else firstTruthyImage rest

/-- Lines 258-272 given the already-normalised morning place: the match loop,
then — whenever the result so far is falsy (`if not day_image`) — the
fallback loop, which leaves `day_image` unchanged when it finds nothing. -/
def resolve_day_image (mp : String) (ps : List CatalogEntry) : Option String :=
  let dayImage : Option String := (findMatchImage mp ps).getD none
  if optTruthy dayImage then dayImage
  else
    match firstTruthyImage ps with
    | some s => some s
    | none => dayImage

/-- A Python optional string as a JSON value (`None` → null). -/
def imgJ : Option String → JVal
  | none => .jnull
  | some s => .jstr s

/-- Line 258's normalisation of `morning.get("place_to_visit", "")`:
`.replace("*", "").strip().lower()`. -/
def normPlace (s : String) : String := pyLower (pyStrip (removeStars s))

/-- `.replace/.strip/.lower` exist only on `str`: any other value raises. -/
def asStrE : JVal → Except PyErr String
  | .jstr s => pure s
  | _ => throw .attributeError

/-- One `d.setdefault(k, v)` call on a dict: append the pair at the end
(CPython insertion order) unless the key is already present. -/
def pySetdefault (acc : List (String × JVal)) (p : String × JVal) : List (String × JVal) :=
  if objHasKey acc p.1 then acc else acc ++ [p]

/-- `d.setdefault(k, v)` for every pair in order (lines 241-253); raises
`AttributeError` when the receiver is not a dict (the pair lists used are
never empty, so the raise is unconditional there). -/
def setdefaultsE (j : JVal) (pairs : List (String × JVal)) : Except PyErr (List (String × JVal)) :=
  match j with
  | .jobj kvs => pure (pairs.foldl pySetdefault kvs)
  | _ => throw .attributeError

/-- The `morning.setdefault` keys/defaults of lines 241-245. -/
def morningDefaults : List (String × JVal) :=
  [("early_place", .jstr ""), ("breakfast", .jstr ""), ("place_to_visit", .jstr ""),
   ("duration", .jstr ""), ("transport_to_next", .jstr "")]

/-- The `afternoon.setdefault` keys/defaults of lines 246-249. -/
def afternoonDefaults : List (String × JVal) :=
  [("lunch", .jstr ""), ("place_to_visit", .jstr ""), ("duration", .jstr ""),
   ("transport_to_next", .jstr "")]

/-- The `evening.setdefault` keys/defaults of lines 250-253. -/
def eveningDefaults : List (String × JVal) :=
  [("dinner", .jstr ""), ("place_to_visit", .jstr ""), ("duration", .jstr ""),
   ("transport_to_next", .jstr "")]

/-- `breakfast/lunch/dinner` coercion of lines 216-218 for a dict entry
`kvs`: the value itself when it is a dict, else `{"food": d.get(key, "")}`.
(The source's `if isinstance(d, dict)` wrapper is always true here: a
non-dict entry has already raised at line 207.) -/
def mealDict (kvs : List (String × JVal)) (key : String) : List (String × JVal) :=
  match objGet kvs key with
  | .jobj m => m
  | _ => [("food", objGetD kvs key (.jstr ""))]

/-- The legacy-shape construction of lines 216-238 for a dict entry. -/
def legacyBlocks (kvs : List (String × JVal)) : JVal × JVal × JVal :=
  let breakfast := mealDict kvs "breakfast"
  let lunch := mealDict kvs "lunch"
  let dinner := mealDict kvs "dinner"
  let morning : JVal := .jobj
    [("early_place", pyOr (pyOr (objGet kvs "early_place") (objGet breakfast "early_place")) (.jstr "")),
     ("breakfast", pyOr (objGet breakfast "food") (.jstr "")),
     ("place_to_visit",
       pyOr (pyOr (pyOr (objGet breakfast "place") (objGet breakfast "place_to_visit"))
         (objGet kvs "place_to_visit")) (.jstr "")),
     ("duration", pyOr (objGet breakfast "duration") (.jstr "")),
     ("transport_to_next", pyOr (objGet breakfast "transport_to_next") (.jstr ""))]
  let afternoon : JVal := .jobj
    [("lunch", pyOr (objGet lunch "food") (.jstr "")),
     ("place_to_visit", pyOr (pyOr (objGet lunch "place") (objGet lunch "place_to_visit")) (.jstr "")),
     ("duration", pyOr (objGet lunch "duration") (.jstr "")),
     ("transport_to_next", pyOr (objGet lunch "transport_to_next") (.jstr ""))]
  let evening : JVal := .jobj
    [("dinner", pyOr (objGet dinner "food") (.jstr "")),
     ("place_to_visit", pyOr (pyOr (objGet dinner "place") (objGet dinner "place_to_visit")) (.jstr "")),
     ("duration", pyOr (objGet dinner "duration") (.jstr "")),
     ("transport_to_next", pyOr (objGet dinner "transport_to_next") (.jstr ""))]
  (morning, afternoon, evening)

/-- The three pre-`setdefault` time blocks of lines 210-238 for a dict
entry: the modern shape when all of `morning`/`afternoon`/`evening` are
present (each defaulted to `\x7b\x7d` when falsy), else the legacy shape. -/
def entryBlocks (kvs : List (String × JVal)) : JVal × JVal × JVal :=
  if objHasKey kvs "morning" && objHasKey kvs "afternoon" && objHasKey kvs "evening" then
    (pyOr (objGet kvs "morning") (.jobj []), pyOr (objGet kvs "afternoon") (.jobj []),
     pyOr (objGet kvs "evening") (.jobj []))
  else legacyBlocks kvs

/-- The body of the `for i, d in enumerate(days_list)` loop (lines 204-286)
for one entry `d` at position `i`.  A non-dict entry raises at line 207
(`d.get("title")` on a non-dict); a truthy non-dict time block raises at the
`setdefault` calls; a non-string `place_to_visit` raises at line 258. -/
def processEntry (d : JVal) (i : Nat) (ps : List CatalogEntry) : Except PyErr JVal :=
  match d with
  | .jobj kvs =>
    let dayNum : JVal :=
      if (objGet kvs "day").truthy then objGet kvs "day" else .jnum (Int.ofNat (i+1))
    let title : JVal :=
      pyOr (pyOr (objGet kvs "title") (objGet kvs "day_title"))
        (.jstr ("Day " ++ pyStr dayNum))
    let blocks := entryBlocks kvs
    match setdefaultsE blocks.1 morningDefaults with
    | .error e => .error e
    | .ok mkvs =>
      match setdefaultsE blocks.2.1 afternoonDefaults with
      | .error e => .error e
      | .ok akvs =>
        match setdefaultsE blocks.2.2 eveningDefaults with
        | .error e => .error e
        | .ok ekvs =>
          match asStrE (objGetD mkvs "place_to_visit" (.jstr "")) with
          | .error e => .error e
          | .ok ptv =>
            let dayImage := imgJ (resolve_day_image (normPlace ptv) ps)
            let transportNote := objGet kvs "transport_note_if_long"
            let dayTips := pyOr (pyOr (objGet kvs "day_tips") (objGet kvs "tips")) (.jstr "")
            .ok (.jobj
              [("day", dayNum), ("title", title), ("morning", .jobj mkvs),
               ("afternoon", .jobj akvs), ("evening", .jobj ekvs),
               ("transport_note_if_long", transportNote), ("day_tips", dayTips),
               ("day_image", dayImage)])
  | _ => .error .attributeError

/-- The whole enumeration loop. -/
def processAll (ds : List JVal) (i : Nat) (ps : List CatalogEntry) : Except PyErr (List JVal) :=
  match ds with
  | [] => pure []
  | d :: rest => do
    let x ← processEntry d i ps
    let xs ← processAll rest (i+1) ps
    pure (x :: xs)

/-- The synthetic placeholder day of lines 291-300 for 0-based index `idx`. -/
def placeholderDay (idx : Nat) : JVal :=
  .jobj
    [("day", .jnum (Int.ofNat (idx+1))),
     ("title", .jstr ("Day " ++ toString (idx+1))),
     ("morning", .jobj
       [("early_place", .jstr ""), ("breakfast", .jstr "Breakfast suggestion"),
        ("place_to_visit", .jstr "**Local**"), ("duration", .jstr "1 hour"),
        ("transport_to_next", .jstr "Short walk, 0.2 mi, walk, $0")]),
     ("afternoon", .jobj
       [("lunch", .jstr "Lunch suggestion"), ("place_to_visit", .jstr "**Local**"),
        ("duration", .jstr "1 hour"),
        ("transport_to_next", .jstr "Short walk, 0.5 mi, walk, $0")]),
     ("evening", .jobj
       [("dinner", .jstr "Dinner suggestion"), ("place_to_visit", .jstr "**Local**"),
        ("duration", .jstr "1-2 hours"), ("transport_to_next", .jstr "N/A")]),
     ("transport_note_if_long", .jnull),
     ("day_tips", .jstr ""),
     ("day_image", .jnull)]

/-- `count` placeholder days starting at 0-based index `start` (the
`while len(normalized) < days_required` loop of lines 289-300). -/
def mkPlaceholders (start : Nat) : Nat → List JVal
  | 0 => []
  | n+1 => placeholderDay start :: mkPlaceholders (start+1) n

/-- `normalize_daywise_schema(days_list, days_required, places_dataset)`
(lines 197-303): process every entry, pad with placeholders up to
`days_required`, and truncate to `days_required`.  `days_required` is a
`Nat`, matching the claims' `N ≥ 0`. -/
def normalize_daywise_schema (days_list : List JVal) (days_required : Nat)
    (ps : List CatalogEntry) : Except PyErr (List JVal) := do
  let normalized ← processAll days_list 0 ps
  let padded := normalized ++ mkPlaceholders normalized.length (days_required - normalized.length)
  pure (padded.take days_required)

/-- The record `normalize_daywise_schema` produces for the entry `\x7b\x7d`
(an empty dict) at position 0 with an empty catalog. -/
def emptyEntryRecord : JVal :=
  .jobj
    [("day", .jnum 1), ("title", .jstr "Day 1"),
     ("morning", .jobj
       [("early_place", .jstr ""), ("breakfast", .jstr ""), ("place_to_visit", .jstr ""),
        ("duration", .jstr ""), ("transport_to_next", .jstr "")]),
     ("afternoon", .jobj
       [("lunch", .jstr ""), ("place_to_visit", .jstr ""), ("duration", .jstr ""),
        ("transport_to_next", .jstr "")]),
     ("evening", .jobj
       [("dinner", .jstr ""), ("place_to_visit", .jstr ""), ("duration", .jstr ""),
        ("transport_to_next", .jstr "")]),
     ("transport_note_if_long", .jnull), ("day_tips", .jstr ""), ("day_image", .jnull)]

/-- Field projection from a produced day record. -/
def fieldOf (r : JVal) (k : String) : JVal :=
  match r with
  | .jobj kvs => objGet kvs k
  | _ => .jnull

example : normalize_daywise_schema [.jobj []] 1 [] = .ok [emptyEntryRecord] := rfl
example : normalize_daywise_schema [] 2 [] = .ok [placeholderDay 0, placeholderDay 1] := rfl
example : normalize_daywise_schema [.jstr "oops"] 1 [] = .error .attributeError := rfl
example :
    (normalize_daywise_schema
      [.jobj [("morning", .jobj [("place_to_visit", .jstr "**Grand Canyon**")]),
              ("afternoon", .jobj []), ("evening", .jobj [])]] 1
      [⟨some "Grand Canyon Lodge", some "img1"⟩]).map (List.map (fieldOf · "day_image"))
    = .ok [.jstr "img1"] := rfl

/-! ### Inversion lemmas for the normalizer -/

theorem processAll_ok {ds : List JVal} {i : Nat} {ps : List CatalogEntry} {l : List JVal}
    (h : processAll ds i ps = .ok l) :
    l.length = ds.length ∧
      ∀ k, k < ds.length → ∃ d r, ds[k]? = some d ∧
        processEntry d (i + k) ps = .ok r ∧ l[k]? = some r := by
  induction ds generalizing i l with
  | nil =>
    simp only [processAll, pure, Except.pure, Except.ok.injEq] at h
    subst h
    exact ⟨rfl, by intro k hk; cases hk⟩
  | cons d rest ih =>
    simp only [processAll, bind, Except.bind] at h
    cases hd : processEntry d i ps with
    | error e => rw [hd] at h; cases h
    | ok x =>
      rw [hd] at h
      cases hr : processAll rest (i+1) ps with
      | error e => rw [hr] at h; cases h
      | ok xs =>
        rw [hr] at h
        simp only [pure, Except.pure, Except.ok.injEq] at h
        subst h
        obtain ⟨hlen, hget⟩ := ih hr
        refine ⟨by simp [hlen], ?_⟩
        intro k hk
        cases k with
        | zero => exact ⟨d, x, by simp, by simpa using hd, by simp⟩
        | succ k =>
          obtain ⟨d2, r2, hd2, hp2, hl2⟩ := hget k (by simpa using hk)
          exact ⟨d2, r2, by simpa using hd2, by rw [show i + (k+1) = i + 1 + k by omega]; exact hp2,
            by simpa using hl2⟩

theorem mkPlaceholders_length (start n : Nat) : (mkPlaceholders start n).length = n := by
  induction n generalizing start with
  | zero => rfl
  | succ n ih => simp [mkPlaceholders, ih]

theorem mkPlaceholders_get (start n k : Nat) (hk : k < n) :
    (mkPlaceholders start n)[k]? = some (placeholderDay (start + k)) := by
  induction n generalizing start k with
  | zero => cases hk
  | succ n ih =>
    cases k with
    | zero => simp [mkPlaceholders]
    | succ k =>
      have := ih (start + 1) k (by omega)
      simp only [mkPlaceholders, List.getElem?_cons_succ]
      rw [this, show start + 1 + k = start + (k + 1) by omega]

theorem normalize_ok_inv {s : List JVal} {N : Nat} {ps : List CatalogEntry} {out : List JVal}
    (h : normalize_daywise_schema s N ps = .ok out) :
    ∃ l, processAll s 0 ps = .ok l ∧
      out = (l ++ mkPlaceholders l.length (N - l.length)).take N := by
  unfold normalize_daywise_schema at h
  cases hp : processAll s 0 ps with
  | error e => rw [hp] at h; simp [bind, Except.bind] at h
  | ok l =>
    rw [hp] at h
    simp only [bind, Except.bind, pure, Except.pure, Except.ok.injEq] at h
    exact ⟨l, rfl, h.symm⟩

/-- Shared characterization of a successful normalization: the output has
exactly the requested length, position `i < N` holds the normalization of
source entry `i` when one exists, and the placeholder for index `i`
otherwise. -/
theorem normalize_ok_shape {s : List JVal} {N : Nat} {ps : List CatalogEntry} {out : List JVal}
    (h : normalize_daywise_schema s N ps = .ok out) :
    out.length = N ∧
      ∀ i, i < N →
        (i < s.length → ∃ d r, s[i]? = some d ∧ processEntry d i ps = .ok r ∧ out[i]? = some r) ∧
        (s.length ≤ i → out[i]? = some (placeholderDay i)) := by
  obtain ⟨l, hl, hout⟩ := normalize_ok_inv h
  obtain ⟨hlen, hget⟩ := processAll_ok hl
  have hpadlen : (l ++ mkPlaceholders l.length (N - l.length)).length = max N l.length := by
    simp [mkPlaceholders_length]; omega
  constructor
  · rw [hout, List.length_take, hpadlen]; omega
  · intro i hi
    have htake : out[i]? = (l ++ mkPlaceholders l.length (N - l.length))[i]? := by
      rw [hout, List.getElem?_take]; simp [hi]
    constructor
    · intro hs
      obtain ⟨d, r, hd, hp, hlr⟩ := hget i (by omega)
      refine ⟨d, r, hd, by simpa using hp, ?_⟩
      rw [htake, List.getElem?_append_left (by omega), hlr]
    · intro hs
      rw [htake, List.getElem?_append_right (by omega), mkPlaceholders_get _ _ _ (by omega)]
      congr 1
      rw [show l.length + (i - l.length) = i by omega]

/-! ### Claim C1 -/

/-- C1: the claim says `normalize_days` returns a sequence of exactly `N`
day-records for every source-entry list.  The code violates this: the entry
`\x7b"morning": "walk", "afternoon": "beach", "evening": "show"\x7d` — whose
time blocks are strings, a shape the legacy branch was written to accept —
raises `AttributeError` at the `morning.setdefault` calls, because the shape
detection of line 210 tests key presence instead of sub-object-ness, so
nothing is returned at all (first conjunct).  Whenever the function does
return, the claimed length/truncation/padding behaviour holds (second
conjunct): the output has length exactly `N`, position `i` holds the
normalization of source entry `i` (first `N` kept in original order, the
rest discarded), and placeholders extend the tail when entries run out. -/
theorem C1_normalize_length_and_crash :
    normalize_daywise_schema
        [.jobj [("morning", .jstr "walk"), ("afternoon", .jstr "beach"),
                ("evening", .jstr "show")]] 1 []
      = .error .attributeError
    ∧ ∀ (s : List JVal) (N : Nat) (ps : List CatalogEntry) (out : List JVal),
        normalize_daywise_schema s N ps = .ok out →
        out.length = N ∧
          ∀ i, i < N →
            (i < s.length →
              ∃ d r, s[i]? = some d ∧ processEntry d i ps = .ok r ∧ out[i]? = some r) ∧
            (s.length ≤ i → out[i]? = some (placeholderDay i)) :=
  ⟨rfl, fun _ _ _ _ h => normalize_ok_shape h⟩

theorem C1_witness :
    normalize_daywise_schema [.jobj []] 2 [] = .ok [emptyEntryRecord, placeholderDay 1] ∧
      [emptyEntryRecord, placeholderDay 1].length = 2 :=
  ⟨rfl, (C1_normalize_length_and_crash.2 [.jobj []] 2 [] [emptyEntryRecord, placeholderDay 1]
    rfl).1⟩

/-! ### Claim C2 -/

/-- C2: the claim says `normalize_days` never fails on any list of well-typed
generic JSON values (objects, strings, numbers, booleans or null).  The code
contradicts this: line 207 evaluates `d.get("title")` without the
`isinstance(d, dict)` guard used one line earlier, so a bare-string entry —
here `["oops"]` — raises `AttributeError`, as do number, boolean and null
entries. -/
theorem C2_normalize_not_total :
    normalize_daywise_schema [.jstr "oops"] 2 [] = .error .attributeError ∧
      normalize_daywise_schema [.jnull] 1 [] = .error .attributeError ∧
      normalize_daywise_schema [.jnum 5] 1 [] = .error .attributeError ∧
      normalize_daywise_schema [.jbool true] 1 [] = .error .attributeError :=
  ⟨rfl, rfl, rfl, rfl⟩

/-! ### Claim C4 -/

theorem headSegCI_nil {p : List Char} (hp : p ≠ []) : headSegCI p [] = false := by
  cases p with
  | nil => exact absurd rfl hp
  | cons c r => rfl

/-- C4 counterexample: on the all-whitespace input `" "` the code does not
raise the empty-input error.  The `if not raw_text` check at line 98 fires
only for the empty string; `" "` passes it, is stripped to nothing, and then
fails the brace search, raising the distinct no-object-start error — even
though the trimmed input is empty, where the claim demands the empty-input
failure. -/
theorem C4_counterexample :
    extract_json_block " " = .error .noObjectStart ∧ pyStrip " " = "" ∧
      ExtractErr.noObjectStart ≠ ExtractErr.emptyInput :=
  ⟨rfl, rfl, by decide⟩

/-- Unfolding of `extract_json_block` past the empty-input check. -/
theorem extract_nonempty_form (s : String) (hne : s ≠ "") :
    extract_json_block s =
      match firstIdx '\x7b' (fencePrep s) with
      | none => .error .noObjectStart
      | some start =>
        match scanFrom ((fencePrep s).drop start) 0 false false 0 with
        | some i => .ok (String.mk (((fencePrep s).drop start).take (i+1)))
        | none => .error .unbalanced := by
  unfold extract_json_block
  rw [if_neg hne]

/-- C4 amended: `extract_structured_object` fails with `EmptyInputError`
exactly for the empty input; a non-empty input that trims to nothing fails
instead with `NoObjectStartError`. -/
theorem C4_empty_input_amended (s : String) :
    (extract_json_block s = .error .emptyInput ↔ s = "") ∧
    (s ≠ "" → pyStrip s = "" → extract_json_block s = .error .noObjectStart) := by
  constructor
  · constructor
    · intro h
      by_contra hne
      rw [extract_nonempty_form s hne] at h
      cases hf : firstIdx '\x7b' (fencePrep s) with
      | none =>
        rw [hf] at h
        exact ExtractErr.noConfusion (Except.error.inj h)
      | some st =>
        rw [hf] at h
        replace h :
            (match scanFrom ((fencePrep s).drop st) 0 false false 0 with
              | some i => Except.ok (String.mk (((fencePrep s).drop st).take (i+1)))
              | none => Except.error ExtractErr.unbalanced)
            = Except.error ExtractErr.emptyInput := h
        cases hs : scanFrom ((fencePrep s).drop st) 0 false false 0 with
        | none =>
          rw [hs] at h
          exact ExtractErr.noConfusion (Except.error.inj h)
        | some i =>
          rw [hs] at h
          exact Except.noConfusion h
    · intro h; subst h; rfl
  · intro hne hstrip
    have hdata : pyStripList s.data = [] := congrArg String.data hstrip
    have hfp : fencePrep s = [] := by
      simp only [fencePrep]
      rw [hdata]
      decide
    rw [extract_nonempty_form s hne, hfp]
    rfl

theorem C4_witness :
    extract_json_block "" = .error .emptyInput ∧
      extract_json_block "  " = .error .noObjectStart :=
  ⟨(C4_empty_input_amended "").1.mpr rfl, (C4_empty_input_amended "  ").2 (by decide) rfl⟩

/-! ### Claim C9 -/

theorem searchLabel_none (f : List Char → Option (List Char)) (cs : List Char)
    (h : ∀ q, f (cs.drop q) = none) : searchLabel f cs = none := by
  induction cs with
  | nil => exact h 0
  | cons c rest ih =>
    have h0 : f (c :: rest) = none := by simpa using h 0
    simp only [searchLabel, h0]
    exact ih fun q => by simpa using h (q + 1)

theorem captureSection_of_noLabel (f : List Char → Option (List Char))
    (stops : List (List Char)) (cs : List Char) (h : ∀ q, f (cs.drop q) = none) :
    captureSection f stops cs = "" := by
  unfold captureSection
  rw [searchLabel_none f cs h]

/-- Lift a bounded no-match fact to all drop offsets (dropping past the end
yields the empty list, already covered by the offset at the length). -/
theorem allDrops_none (f : List Char → Option (List Char)) (l : List Char)
    (h : ∀ q, q ≤ l.length → f (l.drop q) = none) : ∀ q, f (l.drop q) = none := by
  intro q
  by_cases hq : q ≤ l.length
  · exact h q hq
  · rw [List.drop_eq_nil_of_le (by omega)]
    have := h l.length le_rfl
    rwa [List.drop_length] at this

/-- Looking up a key in a mapping built over a table whose keys are
distinct yields the value computed for that key's row. -/
theorem secLookup_map {A : Type} (table : List (String × A)) (g : String × A → String)
    (k : String) (a : A) (hmem : (k, a) ∈ table)
    (hnodup : (table.map Prod.fst).Nodup) :
    secLookup (table.map fun e => (e.1, g e)) k = some (g (k, a)) := by
  induction table with
  | nil => cases hmem
  | cons e rest ih =>
    rw [List.map_cons] at hnodup
    obtain ⟨hhead, htail⟩ := List.nodup_cons.mp hnodup
    rcases List.mem_cons.mp hmem with heq | hmem2
    · subst heq
      simp [secLookup]
    · have hk : ¬ e.1 = k := by
        intro hcontra
        exact hhead (hcontra ▸ List.mem_map_of_mem Prod.fst hmem2)
      simp only [List.map_cons, secLookup, hk, if_false, ite_false]
      exact ih hmem2 htail

theorem sectionSpecs_keys_nodup : (sectionSpecs.map Prod.fst).Nodup := by
  simp [sectionSpecs]

/-- C9: `extract_labeled_sections` is total and, for every input text
(including the empty text), returns a mapping whose keys are exactly the six
fixed section keys in order — never a missing key — with the all-empty
mapping on empty input, and the empty string for any section whose label
phrase matches nowhere in the text. -/
theorem C9_sections_all_keys :
    (∀ text : String, (parse_extra_sections text).map Prod.fst =
      ["famous_shopping", "what_to_pack", "safety_rules", "extra_travel_tips",
       "estimated_total_budget", "closing_note"]) ∧
    parse_extra_sections "" =
      [("famous_shopping", ""), ("what_to_pack", ""), ("safety_rules", ""),
       ("extra_travel_tips", ""), ("estimated_total_budget", ""), ("closing_note", "")] ∧
    ∀ (text : String) k f stops, (k, f, stops) ∈ sectionSpecs →
      (∀ q, f (text.data.drop q) = none) →
      secLookup (parse_extra_sections text) k = some "" := by
  refine ⟨?_, rfl, ?_⟩
  · intro text
    by_cases htext : text = ""
    · subst htext; rfl
    · simp [parse_extra_sections, htext, sectionSpecs]
  · intro text k f stops hmem hnone
    have hcap : captureSection f stops text.data = "" :=
      captureSection_of_noLabel f stops text.data hnone
    by_cases htext : text = ""
    · subst htext
      have hdef : parse_extra_sections "" = sectionSpecs.map fun e => (e.1, "") := rfl
      rw [hdef]
      exact secLookup_map sectionSpecs (fun _ => "") k (f, stops) hmem sectionSpecs_keys_nodup
    · have hform : parse_extra_sections text =
          sectionSpecs.map fun e => (e.1, captureSection e.2.1 e.2.2 text.data) := by
        unfold parse_extra_sections
        rw [if_neg htext]
      rw [hform]
      have hlk := secLookup_map sectionSpecs
        (fun e => captureSection e.2.1 e.2.2 text.data) k (f, stops) hmem
        sectionSpecs_keys_nodup
      rw [hlk]
      exact congrArg some hcap

theorem C9_witness :
    secLookup (parse_extra_sections "xyz") "famous_shopping" = some "" :=
  C9_sections_all_keys.2.2 "xyz" "famous_shopping" famousLabel
    ["What to pack".data, "Safety rules".data] (by simp [sectionSpecs])
    (allDrops_none _ _ (by decide))

/-! ### Claim C5 -/

/-- The capture-stopping rule as claim C5 words it: each capture stops at
the next occurrence of any *later* label phrase in the fixed pipeline order
(never running past an intervening one), so every later label is a stop
phrase. -/
def sectionSpecsClaimed : List (String × (List Char → Option (List Char)) × List (List Char)) :=
  [("famous_shopping", famousLabel,
     ["What to pack".data, "Safety rules".data, "Extra travel tips".data,
      "Estimated total budget".data, "Closing note".data]),
   ("what_to_pack", plainLabel "What to pack".data,
     ["Safety rules".data, "Extra travel tips".data, "Estimated total budget".data,
      "Closing note".data]),
   ("safety_rules", plainLabel "Safety rules".data,
     ["Extra travel tips".data, "Estimated total budget".data, "Closing note".data]),
   ("extra_travel_tips", plainLabel "Extra travel tips".data,
     ["Estimated total budget".data, "Closing note".data]),
   ("estimated_total_budget", plainLabel "Estimated total budget".data,
     ["Closing note".data]),
   ("closing_note", plainLabel "Closing note".data, [])]

/-- Section extraction as the claim describes it (stops at any later label). -/
def parse_sections_claimed (text : String) : List (String × String) :=
  if text = "" then
    [("famous_shopping", ""), ("what_to_pack", ""), ("safety_rules", ""),
     ("extra_travel_tips", ""), ("estimated_total_budget", ""), ("closing_note", "")]
  else
    sectionSpecsClaimed.map fun e => (e.1, captureSection e.2.1 e.2.2 text.data)

/-- C5 counterexample: on `"Famous shopping: A Extra travel tips: B"` the
code's `famous_shopping` capture runs to the end of the text — its lookahead
lists only `What to pack`/`Safety rules`, so it runs *past* the intervening
later label `Extra travel tips` — where the claim requires the capture to
stop at that label and yield `"A"`. -/
theorem C5_counterexample :
    secLookup (parse_extra_sections "Famous shopping: A Extra travel tips: B")
        "famous_shopping" = some "A Extra travel tips: B" ∧
      secLookup (parse_sections_claimed "Famous shopping: A Extra travel tips: B")
        "famous_shopping" = some "A" ∧
      ("A Extra travel tips: B" : String) ≠ "A" :=
  ⟨rfl, rfl, by decide⟩

theorem searchLabel_some (f : List Char → Option (List Char)) (cs : List Char)
    (p : Nat) (r : List Char) (hp : f (cs.drop p) = some r)
    (hmin : ∀ q, q < p → f (cs.drop q) = none) :
    searchLabel f cs = some r := by
  induction cs generalizing p with
  | nil => simpa using hp
  | cons c rest ih =>
    cases p with
    | zero =>
      have h0 : f (c :: rest) = some r := by simpa using hp
      simp [searchLabel, h0]
    | succ p =>
      have h0 : f (c :: rest) = none := by simpa using hmin 0 (Nat.succ_pos p)
      simp only [searchLabel, h0]
      exact ih p (by simpa using hp) fun q hq => by simpa using hmin (q+1) (by omega)

theorem lazyCapture_eq_take (stops : List (List Char)) (cs : List Char) (n : Nat)
    (hn : n ≤ cs.length)
    (hstop : anyStop stops (cs.drop n) = true ∨ n = cs.length)
    (hmin : ∀ m, m < n → anyStop stops (cs.drop m) = false) :
    lazyCapture stops cs = cs.take n := by
  induction cs generalizing n with
  | nil => simp [lazyCapture]
  | cons c rest ih =>
    cases n with
    | zero =>
      rcases hstop with h | h
      · have h0 : anyStop stops (c :: rest) = true := by simpa using h
        simp [lazyCapture, h0]
      · exact absurd h.symm (by simp)
    | succ n =>
      have h0 : anyStop stops (c :: rest) = false := by simpa using hmin 0 (Nat.succ_pos n)
      simp only [lazyCapture, h0, Bool.false_eq_true, if_false, List.take_succ_cons,
        List.cons.injEq, true_and]
      refine ih n (by simpa using hn) ?_ fun m hm => by simpa using hmin (m+1) (by omega)
      rcases hstop with h | h
      · exact Or.inl (by simpa using h)
      · exact Or.inr (by simpa using h)

/-- The regex behaviour of one table row, fully characterised: the match
starts at the first position where the label part matches, the capture is
the span from after the label (and the greedily consumed whitespace) to the
first stop position, and the result is that span stripped. -/
theorem captureSection_spec (f : List Char → Option (List Char)) (stops : List (List Char))
    (cs : List Char) (p : Nat) (r : List Char) (n : Nat)
    (hp : f (cs.drop p) = some r) (hpmin : ∀ q, q < p → f (cs.drop q) = none)
    (hn : n ≤ (r.dropWhile pyIsSpace).length)
    (hstop : anyStop stops ((r.dropWhile pyIsSpace).drop n) = true ∨
      n = (r.dropWhile pyIsSpace).length)
    (hmin : ∀ m, m < n → anyStop stops ((r.dropWhile pyIsSpace).drop m) = false) :
    captureSection f stops cs = String.mk (pyStripList ((r.dropWhile pyIsSpace).take n)) := by
  unfold captureSection
  rw [searchLabel_some f cs p r hp hpmin]
  show String.mk (pyStripList (lazyCapture stops (r.dropWhile pyIsSpace))) = _
  rw [lazyCapture_eq_take stops (r.dropWhile pyIsSpace) n hn hstop hmin]

/-- C5 amended: for each of the six keys, the capture starts after the first
occurrence of the key's label phrase (with its colon/dash rule and greedy
whitespace skip) and stops at the first occurrence of one of the key's
*designated* stop phrases — the next two label phrases in pipeline order
(one for `estimated_total_budget`, none for `closing_note`) — or at the end
of text; the captured span is trimmed, and a key whose label matches nowhere
gets the empty string.  Captures are not stopped by the other, non-designated
later labels. -/
theorem C5_sections_amended (text : String) (k : String)
    (f : List Char → Option (List Char)) (stops : List (List Char))
    (hmem : (k, f, stops) ∈ sectionSpecs) (htext : text ≠ "") :
    (∀ p r n, f (text.data.drop p) = some r → (∀ q, q < p → f (text.data.drop q) = none) →
      n ≤ (r.dropWhile pyIsSpace).length →
      (anyStop stops ((r.dropWhile pyIsSpace).drop n) = true ∨
        n = (r.dropWhile pyIsSpace).length) →
      (∀ m, m < n → anyStop stops ((r.dropWhile pyIsSpace).drop m) = false) →
      secLookup (parse_extra_sections text) k =
        some (String.mk (pyStripList ((r.dropWhile pyIsSpace).take n)))) ∧
    ((∀ q, f (text.data.drop q) = none) →
      secLookup (parse_extra_sections text) k = some "") := by
  have hform : parse_extra_sections text =
      sectionSpecs.map fun e => (e.1, captureSection e.2.1 e.2.2 text.data) := by
    unfold parse_extra_sections
    rw [if_neg htext]
  have hlk := secLookup_map sectionSpecs
    (fun e => captureSection e.2.1 e.2.2 text.data) k (f, stops) hmem sectionSpecs_keys_nodup
  constructor
  · intro p r n hp hpmin hn hstop hmin
    have hcap := captureSection_spec f stops text.data p r n hp hpmin hn hstop hmin
    rw [hform, hlk]
    exact congrArg some hcap
  · intro hnone
    have hcap := captureSection_of_noLabel f stops text.data hnone
    rw [hform, hlk]
    exact congrArg some hcap

theorem C5_witness :
    secLookup (parse_extra_sections "What to pack: socks Safety rules: none") "what_to_pack"
      = some "socks" := by
  have h := (C5_sections_amended "What to pack: socks Safety rules: none" "what_to_pack"
    (plainLabel "What to pack".data) ["Safety rules".data, "Extra travel tips".data]
    (by simp [sectionSpecs]) (by decide)).1 0 " socks Safety rules: none".data 6
    (by decide) (by decide) (by decide) (by decide) (by decide)
  exact h.trans (by decide)

/-! ### Claims C6 and C10 -/

/-- Whether the catalog entry at index `k` name-matches (false past the
end). -/
def nameMatchAt (mp : String) (ps : List CatalogEntry) (k : Nat) : Bool :=
  match ps[k]? with
  | some e => nameMatchesB mp e
  | none => false

/-- Whether the catalog entry at index `k` has a truthy image (false past
the end). -/
def truthyImageAt (ps : List CatalogEntry) (k : Nat) : Bool :=
  match ps[k]? with
  | some e => optTruthy e.local_image
  | none => false

theorem findMatchImage_pos (mp : String) (ps : List CatalogEntry) (i : Nat) (e : CatalogEntry)
    (hi : ps[i]? = some e) (hm : nameMatchesB mp e = true)
    (hmin : ∀ k, k < i → nameMatchAt mp ps k = false) :
    findMatchImage mp ps = some e.local_image := by
  induction ps generalizing i with
  | nil => simp at hi
  | cons p rest ih =>
    cases i with
    | zero =>
      simp only [List.getElem?_cons_zero, Option.some.injEq] at hi
      subst hi
      simp [findMatchImage, hm]
    | succ i =>
      have h0 : nameMatchesB mp p = false := by
        simpa [nameMatchAt] using hmin 0 (Nat.succ_pos i)
      simp only [findMatchImage, h0, Bool.false_eq_true, if_false]
      exact ih i (by simpa using hi) fun k hk => by
        simpa [nameMatchAt] using hmin (k+1) (by omega)

theorem findMatchImage_neg (mp : String) (ps : List CatalogEntry)
    (h : ∀ k, k < ps.length → nameMatchAt mp ps k = false) :
    findMatchImage mp ps = none := by
  induction ps with
  | nil => rfl
  | cons p rest ih =>
    have h0 : nameMatchesB mp p = false := by
      simpa [nameMatchAt] using h 0 (by simp)
    simp only [findMatchImage, h0, Bool.false_eq_true, if_false]
    exact ih fun k hk => by simpa [nameMatchAt] using h (k+1) (by simpa using hk)

theorem firstTruthyImage_pos (ps : List CatalogEntry) (j : Nat) (e : CatalogEntry)
    (hj : ps[j]? = some e) (ht : optTruthy e.local_image = true)
    (hmin : ∀ k, k < j → truthyImageAt ps k = false) :
    firstTruthyImage ps = e.local_image := by
  induction ps generalizing j with
  | nil => simp at hj
  | cons p rest ih =>
    cases j with
    | zero =>
      simp only [List.getElem?_cons_zero, Option.some.injEq] at hj
      subst hj
      simp [firstTruthyImage, ht]
    | succ j =>
      have h0 : optTruthy p.local_image = false := by
        simpa [truthyImageAt] using hmin 0 (Nat.succ_pos j)
      simp only [firstTruthyImage, h0, Bool.false_eq_true, if_false]
      exact ih j (by simpa using hj) fun k hk => by
        simpa [truthyImageAt] using hmin (k+1) (by omega)

theorem firstTruthyImage_neg (ps : List CatalogEntry)
    (h : ∀ k, k < ps.length → truthyImageAt ps k = false) :
    firstTruthyImage ps = none := by
  induction ps with
  | nil => rfl
  | cons p rest ih =>
    have h0 : optTruthy p.local_image = false := by
      simpa [truthyImageAt] using h 0 (by simp)
    simp only [firstTruthyImage, h0, Bool.false_eq_true, if_false]
    exact ih fun k hk => by simpa [truthyImageAt] using h (k+1) (by simpa using hk)

/-- A truthy optional image is a non-empty string. -/
theorem optTruthy_eq_true {o : Option String} (h : optTruthy o = true) :
    ∃ s, o = some s ∧ s ≠ "" := by
  cases o with
  | none => simp [optTruthy] at h
  | some s => exact ⟨s, rfl, by simpa [optTruthy] using h⟩

/-- Name matching as claim C6 words it (a plain substring test, with no
truthiness condition on the searched name). -/
def findMatchImageClaimed (mp : String) : List CatalogEntry → Option (Option String)
  | [] => none
  | p :: rest =>
    if hasSub mp.data (dbNorm p).data then some p.local_image
    else findMatchImageClaimed mp rest

/-- The fallback as claims C6/C10 word it: the first catalog entry with a
non-null image reference, regardless of name. -/
def firstNonNullImage : List CatalogEntry → Option String
  | [] => none
  | p :: rest => if p.local_image.isSome then p.local_image else firstNonNullImage rest

/-- Image resolution as claim C6 words it: the first name-matched entry's
image reference taken unconditionally; only with no name match at all, the
first non-null image; null when the catalog is empty or has no image. -/
def resolve_day_image_claimed (mp : String) (ps : List CatalogEntry) : Option String :=
  match findMatchImageClaimed mp ps with
  | some img => img
  | none => firstNonNullImage ps

/-- C6 counterexample: catalog `[\x7bplace: "a", local_image: None\x7d,
\x7bplace: "b", local_image: "img2"\x7d]` and a day whose normalized morning
place is `"a"`.  The first entry name-matches and the claim says its (null)
image reference is taken, the fallback being reserved for the no-match case;
the code instead falls through (`if not day_image`) and returns `"img2"`,
also at the `normalize_days` level. -/
theorem C6_counterexample :
    resolve_day_image "a" [⟨some "a", none⟩, ⟨some "b", some "img2"⟩] = some "img2" ∧
      resolve_day_image_claimed "a" [⟨some "a", none⟩, ⟨some "b", some "img2"⟩] = none ∧
      (some "img2" : Option String) ≠ none ∧
      (normalize_daywise_schema
        [.jobj [("morning", .jobj [("place_to_visit", .jstr "a")]),
                ("afternoon", .jobj []), ("evening", .jobj [])]] 1
        [⟨some "a", none⟩, ⟨some "b", some "img2"⟩]).map (List.map (fieldOf · "day_image"))
        = .ok [.jstr "img2"] :=
  ⟨rfl, rfl, by decide, rfl⟩

/-- C6 amended: the match loop takes the first name-matching entry's image
reference only when that reference is truthy (non-null and non-empty).
Whenever the match-phase value is falsy — no match, or a matched null/empty
reference — the fallback scan runs: the first truthy image in the catalog is
taken if one exists; otherwise the match-phase value (the matched falsy
reference, or null when there was no match) is kept. -/
theorem C6_image_resolution_amended (mp : String) (ps : List CatalogEntry) :
    (∀ i e, ps[i]? = some e → nameMatchesB mp e = true →
      (∀ k, k < i → nameMatchAt mp ps k = false) →
      optTruthy e.local_image = true →
      resolve_day_image mp ps = e.local_image) ∧
    (∀ i e, ps[i]? = some e → nameMatchesB mp e = true →
      (∀ k, k < i → nameMatchAt mp ps k = false) →
      optTruthy e.local_image = false →
      (∀ j ej, ps[j]? = some ej → optTruthy ej.local_image = true →
        (∀ k, k < j → truthyImageAt ps k = false) →
        resolve_day_image mp ps = ej.local_image) ∧
      ((∀ k, k < ps.length → truthyImageAt ps k = false) →
        resolve_day_image mp ps = e.local_image)) ∧
    ((∀ k, k < ps.length → nameMatchAt mp ps k = false) →
      (∀ j ej, ps[j]? = some ej → optTruthy ej.local_image = true →
        (∀ k, k < j → truthyImageAt ps k = false) →
        resolve_day_image mp ps = ej.local_image) ∧
      ((∀ k, k < ps.length → truthyImageAt ps k = false) →
        resolve_day_image mp ps = none)) := by
  refine ⟨?_, ?_, ?_⟩
  · intro i e hi hm hmin ht
    unfold resolve_day_image
    rw [findMatchImage_pos mp ps i e hi hm hmin]
    simp [ht]
  · intro i e hi hm hmin ht
    constructor
    · intro j ej hj htj hjmin
      unfold resolve_day_image
      rw [findMatchImage_pos mp ps i e hi hm hmin,
        firstTruthyImage_pos ps j ej hj htj hjmin]
      obtain ⟨s, hs, -⟩ := optTruthy_eq_true htj
      simp [ht, hs]
    · intro hnone
      unfold resolve_day_image
      rw [findMatchImage_pos mp ps i e hi hm hmin, firstTruthyImage_neg ps hnone]
      simp [ht]
  · intro hnomatch
    constructor
    · intro j ej hj htj hjmin
      unfold resolve_day_image
      rw [findMatchImage_neg mp ps hnomatch, firstTruthyImage_pos ps j ej hj htj hjmin]
      obtain ⟨s, hs, -⟩ := optTruthy_eq_true htj
      simp [optTruthy, hs]
    · intro hnone
      unfold resolve_day_image
      rw [findMatchImage_neg mp ps hnomatch, firstTruthyImage_neg ps hnone]
      simp [optTruthy]

theorem C6_witness :
    resolve_day_image "grand canyon" [⟨some "Grand Canyon Lodge", some "img1"⟩] = some "img1" :=
  (C6_image_resolution_amended "grand canyon" [⟨some "Grand Canyon Lodge", some "img1"⟩]).1
    0 ⟨some "Grand Canyon Lodge", some "img1"⟩ (by decide) (by decide)
    (by decide) (by decide)

/-- C10 counterexample: catalog `[\x7bplace: "x", local_image: ""\x7d]` with
no name match.  The claim says `day_image` becomes the first *non-null*
image reference (the empty string, which is non-null) and is null only when
no entry has one; the code's fallback tests truthiness, skips the empty
string, and leaves `day_image` null. -/
theorem C10_counterexample :
    resolve_day_image "zzz" [⟨some "x", some ""⟩] = none ∧
      firstNonNullImage [⟨some "x", some ""⟩] = some "" ∧
      (none : Option String) ≠ some "" :=
  ⟨rfl, rfl, by decide⟩

/-- C10 amended: an empty normalized morning place never name-matches; the
fallback scan runs whenever the match phase produced a falsy value (no
match, matched null/empty image, or empty name) and sets `day_image` to the
first *truthy* (non-null, non-empty) image reference in the catalog; when no
entry has a truthy image, `day_image` stays at the match-phase value — null,
unless a name-matched entry supplied an empty-string reference, which is
retained. -/
theorem C10_image_fallback_amended (mp : String) (ps : List CatalogEntry) :
    (mp = "" → ∀ e ∈ ps, nameMatchesB mp e = false) ∧
    ((∀ k, k < ps.length → nameMatchAt mp ps k = false) ∨
      (∃ (i : Nat) (e : CatalogEntry), ps[i]? = some e ∧ nameMatchesB mp e = true ∧
        (∀ k, k < i → nameMatchAt mp ps k = false) ∧ optTruthy e.local_image = false) →
      (∀ j ej, ps[j]? = some ej → optTruthy ej.local_image = true →
        (∀ k, k < j → truthyImageAt ps k = false) →
        resolve_day_image mp ps = ej.local_image) ∧
      ((∀ k, k < ps.length → truthyImageAt ps k = false) →
        (resolve_day_image mp ps = none ∨
          ∃ (i : Nat) (e : CatalogEntry), ps[i]? = some e ∧ nameMatchesB mp e = true ∧
            e.local_image = some "" ∧
            resolve_day_image mp ps = some ""))) := by
  constructor
  · intro hmp e hmem
    subst hmp
    simp [nameMatchesB]
  · intro hfb
    rcases hfb with hnomatch | ⟨i, e, hi, hm, hmin, ht⟩
    · exact ((C6_image_resolution_amended mp ps).2.2 hnomatch).imp id
        (fun h hnone => Or.inl (h hnone))
    · refine ⟨fun j ej hj htj hjmin =>
        (((C6_image_resolution_amended mp ps).2.1 i e hi hm hmin ht).1 j ej hj htj hjmin), ?_⟩
      intro hnone
      have hres := ((C6_image_resolution_amended mp ps).2.1 i e hi hm hmin ht).2 hnone
      cases he : e.local_image with
      | none => exact Or.inl (hres.trans he)
      | some s =>
        have hs : s = "" := by simpa [optTruthy, he] using ht
        subst hs
        exact Or.inr ⟨i, e, hi, hm, he, hres.trans he⟩

theorem C10_witness :
    resolve_day_image "nomatch" [⟨some "a", none⟩, ⟨some "b", some "img"⟩] = some "img" :=
  ((C10_image_fallback_amended "nomatch" [⟨some "a", none⟩, ⟨some "b", some "img"⟩]).2
    (Or.inl (by decide))).1 1 ⟨some "b", some "img"⟩ (by decide) (by decide) (by decide)

/-! ### Claim C3 -/

/-- The scan state of the claim: nesting depth, inside-string toggle,
escape-pending flag. -/
structure ScanSt where
  depth : Nat
  instr : Bool
  esc : Bool

/-- One character of the claim's state machine: an escaped character is
consumed without effect, a backslash arms the escape, an unescaped quote
toggles the string state, and braces count only outside strings. -/
def scanStep (st : ScanSt) (c : Char) : ScanSt :=
  if st.esc then { st with esc := false }
  else if c = '\x5c' then { st with esc := true }
  else if c = '\x22' then { st with instr := !st.instr }
  else if !st.instr && c = '\x7b' then { st with depth := st.depth + 1 }
  else if !st.instr && c = '\x7d' then { st with depth := st.depth - 1 }
  else st

/-- The claim's "the depth returns to zero at position `j`": after the
first `j+1` characters the depth is zero, having been positive after the
first `j`. -/
def closesAt (st : ScanSt) (cs : List Char) (j : Nat) : Prop :=
  ((cs.take (j+1)).foldl scanStep st).depth = 0 ∧
    0 < ((cs.take j).foldl scanStep st).depth

instance (st : ScanSt) (cs : List Char) (j : Nat) : Decidable (closesAt st cs j) :=
  inferInstanceAs (Decidable (_ ∧ _))

/-- The loop of lines 114-131 agrees with the state machine: started from a
state of positive depth, it returns the offset of the first position where
the depth returns to zero. -/
theorem scanFrom_spec (cs : List Char) (st : ScanSt) (i j : Nat)
    (hd : 0 < st.depth) (hc : closesAt st cs j)
    (hmin : ∀ m, m < j → ¬ closesAt st cs m) :
    scanFrom cs st.depth st.instr st.esc i = some (i + j) := by
  induction cs generalizing st i j with
  | nil =>
    obtain ⟨h1, h2⟩ := hc
    simp only [closesAt, List.take_nil, List.foldl_nil] at h1 h2
    omega
  | cons c rest ih =>
    have hdstep : ∀ n, ((c :: rest).take (n+1)).foldl scanStep st =
        (rest.take n).foldl scanStep (scanStep st c) := by
      intro n
      simp [List.take_succ_cons]
    cases j with
    | zero =>
      obtain ⟨h1, h2⟩ := hc
      rw [hdstep 0] at h1
      simp only [List.take_zero, List.foldl_nil] at h1
      by_cases he : st.esc
      · simp [scanStep, he] at h1; omega
      · by_cases hbs : c = '\x5c'
        · simp [scanStep, he, hbs] at h1; omega
        · by_cases hq : c = '\x22'
          · simp [scanStep, he, hbs, hq] at h1; omega
          · by_cases hob : (!st.instr && c = '\x7b') = true
            · simp [scanStep, he, hbs, hq, hob] at h1
            · by_cases hcb : (!st.instr && c = '\x7d') = true
              · have hd1 : st.depth - 1 = 0 := by
                  simpa [scanStep, he, hbs, hq, hob, hcb] using h1
                unfold scanFrom
                simp [he, hbs, hq, hob, hcb, hd1]
              · simp [scanStep, he, hbs, hq, hob, hcb] at h1; omega
    | succ j =>
      have hd1 : 0 < (scanStep st c).depth := by
        have h0 := hmin 0 (Nat.succ_pos j)
        simp only [closesAt, List.take_zero, List.foldl_nil] at h0
        rw [hdstep 0] at h0
        simp only [List.take_zero, List.foldl_nil] at h0
        rcases Nat.eq_zero_or_pos (scanStep st c).depth with h | h
        · exact absurd ⟨h, hd⟩ h0
        · exact h
      have hc1 : closesAt (scanStep st c) rest j := by
        obtain ⟨h1, h2⟩ := hc
        rw [hdstep (j+1)] at h1
        rw [hdstep j] at h2
        exact ⟨h1, h2⟩
      have hmin1 : ∀ m, m < j → ¬ closesAt (scanStep st c) rest m := by
        intro m hm hcm
        apply hmin (m+1) (by omega)
        obtain ⟨h1, h2⟩ := hcm
        refine ⟨?_, ?_⟩
        · rw [hdstep (m+1)]; exact h1
        · rw [hdstep m]; exact h2
      have hrec := ih (scanStep st c) (i+1) j hd1 hc1 hmin1
      rw [show i + 1 + j = i + (j + 1) by omega] at hrec
      unfold scanFrom
      by_cases he : st.esc
      · simpa [scanStep, he] using hrec
      · by_cases hbs : c = '\x5c'
        · simpa [scanStep, he, hbs] using hrec
        · by_cases hq : c = '\x22'
          · simpa [scanStep, he, hbs, hq] using hrec
          · by_cases hob : (!st.instr && c = '\x7b') = true
            · simpa [scanStep, he, hbs, hq, hob] using hrec
            · by_cases hcb : (!st.instr && c = '\x7d') = true
              · have hndz : ¬ (st.depth - 1 = 0) := by
                  have hsd : (scanStep st c).depth = st.depth - 1 := by
                    simp [scanStep, he, hbs, hq, hob, hcb]
                  omega
                simp only [he, hbs, hq, hob, hcb] at hrec ⊢
                simp [scanStep, he, hbs, hq, hob, hcb] at hrec
                simp [hndz]
                exact hrec
              · simpa [scanStep, he, hbs, hq, hob, hcb] using hrec

theorem firstIdx_eq_some (c : Char) (l : List Char) (s : Nat)
    (hb : l[s]? = some c) (hfirst : ∀ q, q < s → l[q]? ≠ some c) :
    firstIdx c l = some s := by
  induction l generalizing s with
  | nil => simp at hb
  | cons x rest ih =>
    cases s with
    | zero =>
      simp only [List.getElem?_cons_zero, Option.some.injEq] at hb
      simp [firstIdx, hb]
    | succ s =>
      have hx : ¬ x = c := by
        intro hxc
        exact hfirst 0 (Nat.succ_pos s) (by simp [hxc])
      simp only [firstIdx, hx, if_false, ite_false]
      rw [ih s (by simpa using hb) fun q hq => by simpa using hfirst (q+1) (by omega)]
      rfl

/-- C3: for every input whose scanned text has its first `\x7b` at position
`s`, opening a span whose braces balance — counting only positions outside
quoted strings, with backslash-escape awareness — at first closing offset
`j`, `extract_json_block` returns exactly the substring from that `\x7b`
through offset `j` inclusive; in particular `\x7d` characters inside quoted
strings do not terminate the scan. -/
theorem C3_extract_balanced (raw : String) (s j : Nat)
    (hne : raw ≠ "")
    (hslt : s < (fencePrep raw).length)
    (hbrace : (fencePrep raw)[s]? = some '\x7b')
    (hfirst : ∀ q, q < s → (fencePrep raw)[q]? ≠ some '\x7b')
    (hc : closesAt ⟨0, false, false⟩ ((fencePrep raw).drop s) j)
    (hmin : ∀ m, m < j → ¬ closesAt ⟨0, false, false⟩ ((fencePrep raw).drop s) m) :
    extract_json_block raw = .ok (String.mk (((fencePrep raw).drop s).take (j+1))) := by
  obtain ⟨rest, hrest⟩ : ∃ rest, (fencePrep raw).drop s = '\x7b' :: rest := by
    have hg : (fencePrep raw)[s] = '\x7b' := by
      have := List.getElem?_eq_getElem hslt
      rw [this] at hbrace
      exact Option.some.inj hbrace
    exact ⟨_, by rw [List.drop_eq_getElem_cons hslt, hg]⟩
  rw [extract_nonempty_form raw hne,
    firstIdx_eq_some '\x7b' (fencePrep raw) s hbrace hfirst]
  show (match scanFrom ((fencePrep raw).drop s) 0 false false 0 with
    | some i => Except.ok (String.mk (((fencePrep raw).drop s).take (i+1)))
    | none => Except.error ExtractErr.unbalanced) = _
  rw [hrest] at hc hmin ⊢
  cases j with
  | zero =>
    exfalso
    obtain ⟨h1, -⟩ := hc
    simp [closesAt, List.take_succ_cons, scanStep] at h1
  | succ j =>
    have hc1 : closesAt ⟨1, false, false⟩ rest j := by
      obtain ⟨h1, h2⟩ := hc
      constructor
      · simpa [List.take_succ_cons, scanStep] using h1
      · simpa [List.take_succ_cons, scanStep] using h2
    have hmin1 : ∀ m, m < j → ¬ closesAt ⟨1, false, false⟩ rest m := by
      intro m hm hcm
      apply hmin (m+1) (by omega)
      obtain ⟨h1, h2⟩ := hcm
      constructor
      · simpa [List.take_succ_cons, scanStep] using h1
      · simpa [List.take_succ_cons, scanStep] using h2
    have hscan := scanFrom_spec rest ⟨1, false, false⟩ 1 j (by decide) hc1 hmin1
    have hstep : scanFrom ('\x7b' :: rest) 0 false false 0 = scanFrom rest 1 false false 1 := by
      simp [scanFrom]
    rw [hstep, hscan, show 1 + j = j + 1 by omega]

theorem C3_witness :
    extract_json_block "\x7b\"a\": \"\x7d not a close\"\x7d\"" =
      .ok "\x7b\"a\": \"\x7d not a close\"\x7d" := by
  have h := C3_extract_balanced "\x7b\"a\": \"\x7d not a close\"\x7d\"" 0 21
    (by decide) (by decide) (by decide) (by decide) (by decide) (by decide)
  exact h

/-! ### Inversion of one loop iteration (shared by C7 and C8) -/

theorem asStrE_ok {v : JVal} {s : String} (h : asStrE v = .ok s) : v = .jstr s := by
  cases v with
  | jstr t =>
    simp only [asStrE, pure, Except.pure, Except.ok.injEq] at h
    rw [h]
  | jnull => simp [asStrE, throw, throwThe, MonadExceptOf.throw] at h
  | jbool b => simp [asStrE, throw, throwThe, MonadExceptOf.throw] at h
  | jnum n => simp [asStrE, throw, throwThe, MonadExceptOf.throw] at h
  | jarr xs => simp [asStrE, throw, throwThe, MonadExceptOf.throw] at h
  | jobj kvs => simp [asStrE, throw, throwThe, MonadExceptOf.throw] at h

/-- A successful loop iteration decomposes exactly as the source does: the
entry is a dict, the three time blocks `setdefault` successfully, the
morning `place_to_visit` is a string, and the record is the eight-field
object of lines 277-286. -/
theorem processEntry_ok_inv {d : JVal} {i : Nat} {ps : List CatalogEntry} {r : JVal}
    (h : processEntry d i ps = .ok r) :
    ∃ kvs mkvs akvs ekvs ptv,
      d = .jobj kvs ∧
      setdefaultsE (entryBlocks kvs).1 morningDefaults = .ok mkvs ∧
      setdefaultsE (entryBlocks kvs).2.1 afternoonDefaults = .ok akvs ∧
      setdefaultsE (entryBlocks kvs).2.2 eveningDefaults = .ok ekvs ∧
      asStrE (objGetD mkvs "place_to_visit" (.jstr "")) = .ok ptv ∧
      r = .jobj
        [("day", if (objGet kvs "day").truthy then objGet kvs "day"
            else .jnum (Int.ofNat (i+1))),
         ("title", pyOr (pyOr (objGet kvs "title") (objGet kvs "day_title"))
           (.jstr ("Day " ++ pyStr (if (objGet kvs "day").truthy then objGet kvs "day"
             else .jnum (Int.ofNat (i+1)))))),
         ("morning", .jobj mkvs), ("afternoon", .jobj akvs), ("evening", .jobj ekvs),
         ("transport_note_if_long", objGet kvs "transport_note_if_long"),
         ("day_tips", pyOr (pyOr (objGet kvs "day_tips") (objGet kvs "tips")) (.jstr "")),
         ("day_image", imgJ (resolve_day_image (normPlace ptv) ps))] := by
  cases d with
  | jobj kvs =>
    simp only [processEntry] at h
    split at h
    next e heq1 => exact Except.noConfusion h
    next mkvs heq1 =>
      split at h
      next e heq2 => exact Except.noConfusion h
      next akvs heq2 =>
        split at h
        next e heq3 => exact Except.noConfusion h
        next ekvs heq3 =>
          split at h
          next e heq4 => exact Except.noConfusion h
          next ptv heq4 =>
            exact ⟨kvs, mkvs, akvs, ekvs, ptv, rfl, heq1, heq2, heq3, heq4,
              (Except.ok.inj h).symm⟩
  | jnull => exact Except.noConfusion h
  | jbool b => exact Except.noConfusion h
  | jnum n => exact Except.noConfusion h
  | jstr s2 => exact Except.noConfusion h
  | jarr xs => exact Except.noConfusion h

/-! ### Claim C8 -/

/-- The day number the loop derives for an entry at 0-based position `i`
(line 206): the entry's own `day` when present and truthy, else `i+1`. -/
def entryDayVal (d : JVal) (i : Nat) : JVal :=
  match d with
  | .jobj kvs =>
    if (objGet kvs "day").truthy then objGet kvs "day" else .jnum (Int.ofNat (i+1))
  | _ => .jnum (Int.ofNat (i+1))

theorem processEntry_day {d : JVal} {i : Nat} {ps : List CatalogEntry} {r : JVal}
    (h : processEntry d i ps = .ok r) : fieldOf r "day" = entryDayVal d i := by
  obtain ⟨kvs, mkvs, akvs, ekvs, ptv, rfl, -, -, -, -, rfl⟩ := processEntry_ok_inv h
  simp [fieldOf, objGet, jlookup, entryDayVal]

/-- C8 counterexample: a single source entry carrying `day: 7` with `N = 1`.
The claim says the (unique) output record has `day = 1`; the code passes the
truthy supplied value through, producing `day = 7`. -/
theorem C8_counterexample :
    (normalize_daywise_schema [.jobj [("day", .jnum 7)]] 1 []).map
        (List.map (fieldOf · "day")) = .ok [.jnum 7] ∧
      JVal.jnum 7 ≠ .jnum 1 :=
  ⟨rfl, by intro h; injection h with h2; exact absurd h2 (by decide)⟩

/-- C8 amended: a successful `normalize_days` output has length exactly `N`
and is ordered by position, with `day = i+1` at position `i` — except that a
source entry supplying its own truthy `day` field has that value passed
through verbatim; placeholder positions beyond the source entries always
carry `day = i+1`. -/
theorem C8_day_numbers_amended (s : List JVal) (N : Nat) (ps : List CatalogEntry)
    (out : List JVal) (h : normalize_daywise_schema s N ps = .ok out) :
    out.length = N ∧
      ∀ i r, i < N → out[i]? = some r →
        (∀ d, s[i]? = some d → fieldOf r "day" = entryDayVal d i) ∧
        (s.length ≤ i → fieldOf r "day" = .jnum (Int.ofNat (i+1))) := by
  obtain ⟨hlen, hget⟩ := normalize_ok_shape h
  refine ⟨hlen, ?_⟩
  intro i r hi hr
  constructor
  · intro d hd
    have hslen : i < s.length := by
      by_contra hc
      rw [List.getElem?_eq_none (by omega)] at hd
      exact Option.noConfusion hd
    obtain ⟨d2, r2, hd2, hp2, hr2⟩ := (hget i hi).1 hslen
    have hdd : d2 = d := Option.some.inj (hd2.symm.trans hd)
    have hrr : r2 = r := Option.some.inj (hr2.symm.trans hr)
    subst hdd hrr
    exact processEntry_day hp2
  · intro hsl
    have hr2 := (hget i hi).2 hsl
    have hrr : r = placeholderDay i := (Option.some.inj (hr.symm.trans hr2))
    subst hrr
    simp [fieldOf, objGet, jlookup, placeholderDay]

theorem C8_witness :
    [emptyEntryRecord, placeholderDay 1, placeholderDay 2].length = 3 ∧
      fieldOf (placeholderDay 2) "day" = .jnum 3 := by
  have h := C8_day_numbers_amended [.jobj []] 3 []
    [emptyEntryRecord, placeholderDay 1, placeholderDay 2] rfl
  refine ⟨h.1, ?_⟩
  have h2 := (h.2 2 (placeholderDay 2) (by omega) (by simp)).2 (by simp)
  simpa using h2

/-! ### Claim C7 -/

theorem jlookup_append (l1 l2 : List (String × JVal)) (k : String) :
    jlookup (l1 ++ l2) k = (jlookup l1 k).or (jlookup l2 k) := by
  induction l1 with
  | nil => simp [jlookup]
  | cons p rest ih =>
    obtain ⟨k1, v1⟩ := p
    by_cases hk : k1 = k
    · simp [jlookup, hk]
    · simp [jlookup, hk, ih]

theorem pySetdefault_hasKey_mono {acc : List (String × JVal)} {k : String}
    (h : objHasKey acc k = true) (p : String × JVal) :
    objHasKey (pySetdefault acc p) k = true := by
  unfold pySetdefault
  split
  · exact h
  · simpa [objHasKey, jlookup_append, Option.isSome_or] using Or.inl (by simpa [objHasKey] using h)

theorem fold_hasKey_mono (pairs : List (String × JVal)) {acc : List (String × JVal)}
    {k : String} (h : objHasKey acc k = true) :
    objHasKey (pairs.foldl pySetdefault acc) k = true := by
  induction pairs generalizing acc with
  | nil => exact h
  | cons p rest ih => exact ih (pySetdefault_hasKey_mono h p)

theorem fold_hasKey_pairs (pairs : List (String × JVal)) {acc : List (String × JVal)}
    {k : String} {v : JVal} (h : (k, v) ∈ pairs) :
    objHasKey (pairs.foldl pySetdefault acc) k = true := by
  induction pairs generalizing acc with
  | nil => cases h
  | cons p rest ih =>
    rcases List.mem_cons.mp h with heq | hmem
    · subst heq
      refine fold_hasKey_mono rest ?_
      unfold pySetdefault
      split
      next hh => exact hh
      next hh =>
        have hnone : jlookup acc k = none := by
          cases hjk : jlookup acc k with
          | none => rfl
          | some v2 =>
            exfalso
            apply hh
            simp [objHasKey, hjk]
        simp [objHasKey, jlookup_append, hnone, jlookup]
    · exact ih hmem

theorem fold_noop (pairs : List (String × JVal)) {acc : List (String × JVal)}
    (h : ∀ p ∈ pairs, objHasKey acc p.1 = true) :
    pairs.foldl pySetdefault acc = acc := by
  induction pairs with
  | nil => rfl
  | cons p rest ih =>
    have hp : pySetdefault acc p = acc := by
      unfold pySetdefault
      rw [if_pos (h p (by simp))]
    simp only [List.foldl_cons, hp]
    exact ih fun q hq => h q (by simp [hq])

theorem setdefaultsE_ok_inv {j : JVal} {pairs out : List (String × JVal)}
    (h : setdefaultsE j pairs = .ok out) :
    ∃ kvs, j = .jobj kvs ∧ out = pairs.foldl pySetdefault kvs := by
  cases j with
  | jobj kvs =>
    simp only [setdefaultsE, pure, Except.pure, Except.ok.injEq] at h
    exact ⟨kvs, rfl, h.symm⟩
  | jnull => simp [setdefaultsE, throw, throwThe, MonadExceptOf.throw] at h
  | jbool b => simp [setdefaultsE, throw, throwThe, MonadExceptOf.throw] at h
  | jnum n => simp [setdefaultsE, throw, throwThe, MonadExceptOf.throw] at h
  | jstr s => simp [setdefaultsE, throw, throwThe, MonadExceptOf.throw] at h
  | jarr xs => simp [setdefaultsE, throw, throwThe, MonadExceptOf.throw] at h

theorem setdefaultsE_keys {j : JVal} {pairs out : List (String × JVal)}
    (h : setdefaultsE j pairs = .ok out) : ∀ p ∈ pairs, objHasKey out p.1 = true := by
  obtain ⟨kvs, -, rfl⟩ := setdefaultsE_ok_inv h
  intro p hp
  obtain ⟨k, v⟩ := p
  exact fold_hasKey_pairs pairs hp

theorem setdefaultsE_noop {kvs pairs : List (String × JVal)}
    (h : ∀ p ∈ pairs, objHasKey kvs p.1 = true) :
    setdefaultsE (.jobj kvs) pairs = .ok kvs := by
  simp [setdefaultsE, pure, Except.pure, fold_noop pairs h]

theorem truthy_jnum_succ (i : Nat) : (JVal.jnum (Int.ofNat (i+1))).truthy = true := by
  have hne : Int.ofNat (i+1) ≠ 0 := by
    rw [Int.ofNat_eq_natCast]
    omega
  simpa [JVal.truthy] using hne

theorem truthy_titleDefault (t : String) : (JVal.jstr ("Day " ++ t)).truthy = true := by
  simp only [JVal.truthy, ne_eq, decide_eq_true_eq]
  intro hcontra
  have hd := congrArg String.data hcontra
  rw [String.data_append "Day " t] at hd
  simp at hd

theorem pyOr_of_truthy {a : JVal} (h : a.truthy = true) (b : JVal) : pyOr a b = a := by
  simp [pyOr, h]

theorem pyOr_of_falsy {a : JVal} (h : a.truthy = false) (b : JVal) : pyOr a b = b := by
  simp [pyOr, h]

theorem pyOr_default_truthy (a : JVal) {b : JVal} (hb : b.truthy = true) :
    (pyOr a b).truthy = true := by
  unfold pyOr
  split
  next h => exact h
  next => exact hb

/-- Re-deriving `day_tips` from a stored `a or b or ""` value (with no
`tips` key) gives the stored value back. -/
theorem dayTips_fix (a b : JVal) :
    pyOr (pyOr (pyOr (pyOr a b) (.jstr "")) .jnull) (.jstr "") =
      pyOr (pyOr a b) (.jstr "") := by
  by_cases hx : (pyOr a b).truthy = true
  · rw [pyOr_of_truthy hx, pyOr_of_truthy hx, pyOr_of_truthy hx]
  · have hx2 : (pyOr a b).truthy = false := by
      cases hxx : (pyOr a b).truthy
      · rfl
      · exact absurd hxx hx
    rw [pyOr_of_falsy hx2]
    rfl

theorem truthy_obj_of_ne_nil {kvs : List (String × JVal)} (h : kvs ≠ []) :
    (JVal.jobj kvs).truthy = true := by
  cases kvs with
  | nil => exact absurd rfl h
  | cons p rest => rfl

/-- A record already in the canonical eight-field shape re-normalizes to
itself. -/
theorem processEntry_fixpoint (i : Nat) (ps : List CatalogEntry)
    (dn tt tn dt : JVal) (mkvs akvs ekvs : List (String × JVal)) (ptv : String)
    (hdn : dn.truthy = true) (htt : tt.truthy = true)
    (hdt : pyOr (pyOr dt .jnull) (.jstr "") = dt)
    (hm : setdefaultsE (.jobj mkvs) morningDefaults = .ok mkvs)
    (ha : setdefaultsE (.jobj akvs) afternoonDefaults = .ok akvs)
    (he : setdefaultsE (.jobj ekvs) eveningDefaults = .ok ekvs)
    (hmne : mkvs ≠ []) (hane : akvs ≠ []) (hene : ekvs ≠ [])
    (hptv : asStrE (objGetD mkvs "place_to_visit" (.jstr "")) = .ok ptv) :
    processEntry (.jobj
      [("day", dn), ("title", tt), ("morning", .jobj mkvs), ("afternoon", .jobj akvs),
       ("evening", .jobj ekvs), ("transport_note_if_long", tn), ("day_tips", dt),
       ("day_image", imgJ (resolve_day_image (normPlace ptv) ps))]) i ps =
    .ok (.jobj
      [("day", dn), ("title", tt), ("morning", .jobj mkvs), ("afternoon", .jobj akvs),
       ("evening", .jobj ekvs), ("transport_note_if_long", tn), ("day_tips", dt),
       ("day_image", imgJ (resolve_day_image (normPlace ptv) ps))]) := by
  have hL : ∀ key : String, objGet
      [("day", dn), ("title", tt), ("morning", JVal.jobj mkvs), ("afternoon", JVal.jobj akvs),
       ("evening", JVal.jobj ekvs), ("transport_note_if_long", tn), ("day_tips", dt),
       ("day_image", imgJ (resolve_day_image (normPlace ptv) ps))] key =
      (jlookup
      [("day", dn), ("title", tt), ("morning", JVal.jobj mkvs), ("afternoon", JVal.jobj akvs),
       ("evening", JVal.jobj ekvs), ("transport_note_if_long", tn), ("day_tips", dt),
       ("day_image", imgJ (resolve_day_image (normPlace ptv) ps))] key).getD .jnull :=
    fun _ => rfl
  have hblocks : entryBlocks
      [("day", dn), ("title", tt), ("morning", JVal.jobj mkvs), ("afternoon", JVal.jobj akvs),
       ("evening", JVal.jobj ekvs), ("transport_note_if_long", tn), ("day_tips", dt),
       ("day_image", imgJ (resolve_day_image (normPlace ptv) ps))] =
      (pyOr (.jobj mkvs) (.jobj []), pyOr (.jobj akvs) (.jobj []),
       pyOr (.jobj ekvs) (.jobj [])) := rfl
  have hpm : pyOr (JVal.jobj mkvs) (.jobj []) = .jobj mkvs :=
    pyOr_of_truthy (truthy_obj_of_ne_nil hmne) _
  have hpa : pyOr (JVal.jobj akvs) (.jobj []) = .jobj akvs :=
    pyOr_of_truthy (truthy_obj_of_ne_nil hane) _
  have hpe : pyOr (JVal.jobj ekvs) (.jobj []) = .jobj ekvs :=
    pyOr_of_truthy (truthy_obj_of_ne_nil hene) _
  simp only [processEntry, hblocks, hpm, hpa, hpe, hm, ha, he, hptv]
  simp [objGet, jlookup, hdn, pyOr_of_truthy htt, hdt]

theorem processEntry_idem {d : JVal} {i : Nat} {ps : List CatalogEntry} {r : JVal}
    (h : processEntry d i ps = .ok r) : processEntry r i ps = .ok r := by
  obtain ⟨kvs, mkvs, akvs, ekvs, ptv, rfl, heq1, heq2, heq3, heq4, rfl⟩ := processEntry_ok_inv h
  have hmkeys : ∀ p ∈ morningDefaults, objHasKey mkvs p.1 = true := setdefaultsE_keys heq1
  have hakeys : ∀ p ∈ afternoonDefaults, objHasKey akvs p.1 = true := setdefaultsE_keys heq2
  have hekeys : ∀ p ∈ eveningDefaults, objHasKey ekvs p.1 = true := setdefaultsE_keys heq3
  have hmk : objHasKey mkvs "place_to_visit" = true :=
    hmkeys ("place_to_visit", .jstr "") (by simp [morningDefaults])
  have hak : objHasKey akvs "lunch" = true :=
    hakeys ("lunch", .jstr "") (by simp [afternoonDefaults])
  have hek : objHasKey ekvs "dinner" = true :=
    hekeys ("dinner", .jstr "") (by simp [eveningDefaults])
  have hmne : mkvs ≠ [] := by
    intro hnil
    rw [hnil] at hmk
    simp [objHasKey, jlookup] at hmk
  have hane : akvs ≠ [] := by
    intro hnil
    rw [hnil] at hak
    simp [objHasKey, jlookup] at hak
  have hene : ekvs ≠ [] := by
    intro hnil
    rw [hnil] at hek
    simp [objHasKey, jlookup] at hek
  have hdn : (if (objGet kvs "day").truthy then objGet kvs "day"
      else JVal.jnum (Int.ofNat (i+1))).truthy = true := by
    split
    next hh => exact hh
    next => exact truthy_jnum_succ i
  exact processEntry_fixpoint i ps _ _ _ _ mkvs akvs ekvs ptv hdn
    (pyOr_default_truthy _ (truthy_titleDefault _))
    (dayTips_fix _ _)
    (setdefaultsE_noop hmkeys) (setdefaultsE_noop hakeys) (setdefaultsE_noop hekeys)
    hmne hane hene heq4

theorem processAll_idem {ds l : List JVal} {i : Nat} {ps : List CatalogEntry}
    (h : processAll ds i ps = .ok l) : processAll l i ps = .ok l := by
  induction ds generalizing i l with
  | nil =>
    simp only [processAll, pure, Except.pure, Except.ok.injEq] at h
    subst h
    rfl
  | cons d rest ih =>
    simp only [processAll, bind, Except.bind] at h
    cases hd : processEntry d i ps with
    | error e => rw [hd] at h; cases h
    | ok x =>
      rw [hd] at h
      cases hr : processAll rest (i+1) ps with
      | error e => rw [hr] at h; cases h
      | ok xs =>
        rw [hr] at h
        simp only [pure, Except.pure, Except.ok.injEq] at h
        subst h
        have hx2 := processEntry_idem hd
        have hxs2 := ih hr
        simp [processAll, bind, Except.bind, hx2, hxs2, pure, Except.pure]

theorem processAll_take {l : List JVal} {i : Nat} {ps : List CatalogEntry} (N : Nat)
    (h : processAll l i ps = .ok l) : processAll (l.take N) i ps = .ok (l.take N) := by
  induction l generalizing N i with
  | nil => simp [processAll, pure, Except.pure]
  | cons x xs ih =>
    simp only [processAll, bind, Except.bind] at h
    cases hd : processEntry x i ps with
    | error e => rw [hd] at h; cases h
    | ok x2 =>
      rw [hd] at h
      cases hr : processAll xs (i+1) ps with
      | error e => rw [hr] at h; cases h
      | ok xs2 =>
        rw [hr] at h
        simp only [pure, Except.pure, Except.ok.injEq, List.cons.injEq] at h
        obtain ⟨hx, hxs⟩ := h
        subst hx
        cases N with
        | zero => simp [processAll, pure, Except.pure]
        | succ n =>
          have hfix : processAll xs (i+1) ps = .ok xs := by rw [hr, hxs]
          have := ih n hfix
          simp [processAll, List.take_succ_cons, bind, Except.bind, hd, this, pure, Except.pure]

/-- C7 counterexample: `normalize_days([], 1, C)` with a catalog `C` holding
an image produces one placeholder day with `day_image = null`; re-running
normalization on that output re-resolves the placeholder's `"**Local**"`
morning place against the catalog and fills `day_image = "img"`, so the
second run differs from the first. -/
theorem C7_counterexample :
    ((normalize_daywise_schema [] 1 [⟨some "x", some "img"⟩]).bind
        (fun l => normalize_daywise_schema l 1 [⟨some "x", some "img"⟩])).map
        (List.map (fieldOf · "day_image")) = .ok [.jstr "img"] ∧
      (normalize_daywise_schema [] 1 [⟨some "x", some "img"⟩]).map
        (List.map (fieldOf · "day_image")) = .ok [.jnull] ∧
      JVal.jstr "img" ≠ .jnull :=
  ⟨rfl, rfl, fun hh => JVal.noConfusion hh⟩

/-- C7 amended: normalization is idempotent whenever the required count does
not exceed the number of source entries, i.e. the first run appends no
placeholder days.  (A padded output is in general not a fixed point: the
placeholder's `day_image` is `null` but its `"**Local**"` morning place is
re-resolved against the catalog on a second run.) -/
theorem C7_idempotent_amended (s : List JVal) (N : Nat) (ps : List CatalogEntry)
    (out : List JVal) (h : normalize_daywise_schema s N ps = .ok out)
    (hlen : N ≤ s.length) :
    normalize_daywise_schema out N ps = .ok out := by
  obtain ⟨l, hl, hout⟩ := normalize_ok_inv h
  have hlenl : l.length = s.length := (processAll_ok hl).1
  have hpad : mkPlaceholders l.length (N - l.length) = [] := by
    rw [show N - l.length = 0 by omega]
    rfl
  rw [hpad, List.append_nil] at hout
  subst hout
  have hfix : processAll l 0 ps = .ok l := processAll_idem hl
  have htake : processAll (l.take N) 0 ps = .ok (l.take N) := processAll_take N hfix
  have hlt : (l.take N).length = N := by
    rw [List.length_take]
    omega
  unfold normalize_daywise_schema
  rw [htake]
  show Except.ok (((l.take N) ++
    mkPlaceholders (l.take N).length (N - (l.take N).length)).take N) = _
  rw [hlt, show N - N = 0 by omega]
  show Except.ok ((l.take N ++ []).take N) = _
  rw [List.append_nil, List.take_of_length_le (le_of_eq hlt)]

theorem C7_witness :
    normalize_daywise_schema [emptyEntryRecord] 1 [] = .ok [emptyEntryRecord] :=
  C7_idempotent_amended [.jobj []] 1 [] [emptyEntryRecord] rfl (by simp)

end ItinerarySpec
